import Mathlib

/-!
Shallow embedding of `src/kas/libcmds.py` (kas setup tool, module of common
plugin commands): the command orchestrator (class Macro) and the repository
synchronizer policies (classes ReposFetch and ReposCheckout).

External processes are modelled by an oracle (`GitWorld`) mapping an argument
vector and working directory to an exit status and captured stdout; the
observable behaviour of each policy is a trace of events (subprocess
invocations, directory creations, log records) plus an optional propagated
subprocess error.
-/

namespace Kas

/-! ## Command orchestrator (class Macro, `Macro.run`) -/

/-- The four kinds of callables `Macro.run` may invoke for a step, each tagged
with the step name used for its lookup. -/
inductive Action where
  | preHook (name : String)
  | overrideHook (name : String)
  | defaultRoutine (name : String)
  | postHook (name : String)
deriving DecidableEq, Repr

/-- The step name an action belongs to. -/
def Action.stepName : Action → String
  | .preHook n => n
  | .overrideHook n => n
  | .defaultRoutine n => n
  | .postHook n => n

/-- Hook environment: which hooks the configuration registers for a step name
(`config.pre_hook`, `config.get_hook`, `config.post_hook` returning a truthy
callable or not), and the behaviour of invoking a callable on the shared
configuration: it may mutate the configuration (return a new `Cfg`) or raise
(`Except.error`). `Action.defaultRoutine` stands for `command.execute`. -/
structure HookEnv (Cfg Err : Type) where
  hasPre : String → Bool
  hasOverride : String → Bool
  hasPost : String → Bool
  runAction : Action → Cfg → Except Err Cfg

/-- The routine `Macro.run` invokes in place of a step's body: the override
hook when `config.get_hook(name)` is truthy, else the command's own
`execute`. -/
def stepAct {Cfg Err : Type} (h : HookEnv Cfg Err) (name : String) : Action :=
  if h.hasOverride name then Action.overrideHook name else Action.defaultRoutine name

/-- The part of one `Macro.run` loop iteration after the pre-hook: run the
override hook or the command body, then the post-hook when registered.
`pre` is the trace accumulated so far; invocations are recorded in the trace
as (action, configuration it was called with) even when they raise. -/
def stepMid {Cfg Err : Type} (h : HookEnv Cfg Err) (name : String) (c₀ : Cfg)
    (pre : List (Action × Cfg)) : Except Err Cfg × List (Action × Cfg) :=
  match h.runAction (stepAct h name) c₀ with
  | .error e => (.error e, pre ++ [(stepAct h name, c₀)])
  | .ok c₁ =>
    if h.hasPost name then
      (h.runAction (Action.postHook name) c₁,
       pre ++ [(stepAct h name, c₀), (Action.postHook name, c₁)])
    else (.ok c₁, pre ++ [(stepAct h name, c₀)])

/-- One non-skipped iteration of the `Macro.run` loop: pre-hook (when
registered), then override-or-default, then post-hook (when registered),
each called with the configuration as its only argument. -/
def runStep {Cfg Err : Type} (h : HookEnv Cfg Err) (name : String) (cfg : Cfg) :
    Except Err Cfg × List (Action × Cfg) :=
  if h.hasPre name then
    match h.runAction (Action.preHook name) cfg with
    | .error e => (.error e, [(Action.preHook name, cfg)])
    | .ok c₀ => stepMid h name c₀ [(Action.preHook name, cfg)]
  else stepMid h name cfg []

/-- `Macro.run(config, skip)`: execute every command of the plan in insertion
order, skipping those whose name is in `skip`; exceptions are not caught, so
an error from any callable ends the run at once. The result is the final
configuration (or the propagated error) together with the trace of invoked
callables. -/
def planRun {Cfg Err : Type} (h : HookEnv Cfg Err) (commands : List String)
    (skip : List String) (cfg : Cfg) : Except Err Cfg × List (Action × Cfg) :=
  match commands with
  | [] => (.ok cfg, [])
  | c :: cs =>
    if skip.contains c then planRun h cs skip cfg
    else
      match runStep h c cfg with
      | (.error e, tr) => (.error e, tr)
      | (.ok c₁, tr) =>
        let rest := planRun h cs skip c₁
        (rest.1, tr ++ rest.2)

/-- The trace shape `Macro.run` produces for one non-skipped step named
`name`: the pre-hook entry exactly when one is registered, then exactly one
of override hook / default routine, then the post-hook entry exactly when
one is registered. -/
def StepShape {Cfg Err : Type} (h : HookEnv Cfg Err) (name : String)
    (l : List (Action × Cfg)) : Prop :=
  ∃ c₀ c₁ c₂,
    l = (if h.hasPre name then [(Action.preHook name, c₀)] else [])
        ++ [(stepAct h name, c₁)]
        ++ (if h.hasPost name then [(Action.postHook name, c₂)] else [])

/-! ## Data model of the repository synchronizer -/

/-- An environment mapping, as an ordered association list. -/
abbrev Env := List (String × String)

/-- One repository entry of the configuration (`config.get_repos()`). -/
structure Repo where
  url : String
  path : String
  refspec : String
  name : String
  qualified_name : String
  git_operation_disabled : Bool
deriving DecidableEq, Repr

/-- The slice of the configuration context the synchronizer policies read. -/
structure KasConfig where
  repos : List Repo
  repo_ref_dir : Option String
  environ : Env
  kas_work_dir : String
deriving DecidableEq, Repr

/-- One subprocess invocation as issued by a call site: the argument vector,
the environment mapping the caller passed explicitly (`none` when the call
site passed no `env` argument), and the working directory. -/
structure Invocation where
  cmd : List String
  env : Option Env
  cwd : String
deriving DecidableEq, Repr

/-- Severity levels of the logging surface used by `libcmds`. -/
inductive LogLevel where
  | debug
  | info
  | warning
deriving DecidableEq, Repr

/-- Observable events of a policy execution, in program order: a subprocess
invocation, a `os.makedirs(path, exist_ok=True)` call, or a log record kept
as its format string plus arguments. -/
inductive Event where
  | invoke (inv : Invocation)
  | makedirs (path : String)
  | log (level : LogLevel) (fmt : String) (args : List String)
deriving DecidableEq, Repr

/-- The error a failing-mode subprocess call raises: the invocation, its
nonzero exit status and its captured output. -/
structure CmdError where
  inv : Invocation
  retc : Nat
  output : String
deriving DecidableEq, Repr

/-- The external version-control executable and filesystem, as an oracle:
`pathExists` answers `os.path.exists`, and `run` maps an argument vector and
working directory to the exit status and captured standard output of the
subprocess. -/
structure GitWorld where
  pathExists : String → Bool
  run : List String → String → Nat × String

/-- Result of `runCmd`: exit status, captured stdout, and the raised error
when in failing mode with a nonzero status. -/
structure CmdResult where
  retc : Nat
  output : String
  err : Option CmdError
deriving DecidableEq, Repr

/-- Modelled from the spec: this is the process runner of `kas.libkas`
(called run_cmd there), which is not under `src/`. Per the
process-invocation contract of the spec, a call passes an
argument vector, an environment mapping and a working directory, and returns
an exit status and captured standard output; callers may opt out of raising on
nonzero status (`fail=False`), otherwise (`fail` true, the default) a nonzero
exit status raises. -/
def runCmd (w : GitWorld) (cmd : List String) (env : Option Env) (cwd : String)
    (fail : Bool) : CmdResult :=
  let r := w.run cmd cwd
  { retc := r.1
    output := r.2
    err := if fail && r.1 != 0 then some ⟨⟨cmd, env, cwd⟩, r.1, r.2⟩ else none }

/-! ## Path helpers (`os.path`) -/

/-- Python whitespace characters removed by `str.strip()`. -/
def isPySpace (c : Char) : Bool :=
  c = ' ' || c = '\t' || c = '\n' || c = '\x0d' || c = '\x0b' || c = '\x0c'

/-- `str.strip()`: remove surrounding whitespace. -/
def pyStrip (s : String) : String :=
  String.mk (((s.toList.dropWhile isPySpace).reverse.dropWhile isPySpace).reverse)

/-- `os.path.join(a, b)` for one relative or absolute component `b`. -/
def joinPath (a b : String) : String :=
  if b.startsWith "/" then b
  else if a = "" then b
  else if a.endsWith "/" then a ++ b
  else a ++ "/" ++ b

/-- `os.path.dirname(p)` (posix): the text up to the last slash, with
trailing slashes stripped unless the head is all slashes. -/
def dirname (p : String) : String :=
  let cs := p.toList
  match cs.reverse.findIdx? (· = '/') with
  | none => ""
  | some k =>
    let head := cs.take (cs.length - k)
    if head.all (· = '/') then String.mk head
    else String.mk ((head.reverse.dropWhile (· = '/')).reverse)

/-- `config.get_repo_ref_dir() or ''`: the configured reference-directory
root, with Python falsiness (absent or empty both give `''`). -/
def refDirOrEmpty (cfg : KasConfig) : String :=
  match cfg.repo_ref_dir with
  | none => ""
  | some s => s

/-! ## Repository fetch policy (`ReposFetch.execute`) -/

/-- The body of the `ReposFetch.execute` loop for one repository entry,
returning the events it emits and the error it propagates, if any.
Mirrors the source: skip disabled entries; when the local path does not
exist, create the parent directories and clone (with `--reference` when a
truthy reference directory is configured and its subdirectory named by the
qualified name exists), in failing mode; when the path exists, probe
`git cat-file -t refspec` with failure suppressed, and on nonzero status try
`git fetch --all` with failure suppressed, logging a warning on failure. -/
def fetchRepo (w : GitWorld) (cfg : KasConfig) (repo : Repo) :
    List Event × Option CmdError :=
  if repo.git_operation_disabled then ([], none)
  else if !w.pathExists repo.path then
    let gitsrcdir := joinPath (refDirOrEmpty cfg) repo.qualified_name
    let head := [Event.makedirs (dirname repo.path),
                 Event.log .debug "Looking for repo ref dir in %s" [gitsrcdir]]
    if refDirOrEmpty cfg != "" && w.pathExists gitsrcdir then
      let cmd := ["/usr/bin/git", "clone", "--reference", gitsrcdir,
                  repo.url, repo.path]
      let r := runCmd w cmd (some cfg.environ) cfg.kas_work_dir true
      (head ++ [Event.invoke ⟨cmd, some cfg.environ, cfg.kas_work_dir⟩], r.err)
    else
      let cmd := ["/usr/bin/git", "clone", "-q", repo.url, repo.path]
      let r := runCmd w cmd (some cfg.environ) cfg.kas_work_dir true
      (head ++ [Event.invoke ⟨cmd, some cfg.environ, cfg.kas_work_dir⟩], r.err)
  else
    let cmd1 := ["/usr/bin/git", "cat-file", "-t", repo.refspec]
    let r1 := runCmd w cmd1 (some cfg.environ) repo.path false
    let ev1 := Event.invoke ⟨cmd1, some cfg.environ, repo.path⟩
    if r1.retc = 0 then ([ev1], none)
    else
      let cmd2 := ["/usr/bin/git", "fetch", "--all"]
      let r2 := runCmd w cmd2 (some cfg.environ) repo.path false
      let ev2 := Event.invoke ⟨cmd2, some cfg.environ, repo.path⟩
      if r2.retc != 0 then
        ([ev1, ev2,
          Event.log .warning "Could not update repository %s: %s"
            [repo.name, r2.output]], none)
      else ([ev1, ev2], none)

/-- Run a per-entry policy body over a repository list in order, accumulating
events and stopping at the first propagated error (an uncaught exception ends
the surrounding loop). -/
def runEntries (f : Repo → List Event × Option CmdError) :
    List Repo → List Event × Option CmdError
  | [] => ([], none)
  | r :: rs =>
    let p := f r
    match p.2 with
    | some e => (p.1, some e)
    | none =>
      let q := runEntries f rs
      (p.1 ++ q.1, q.2)

/-- `ReposFetch.execute(config)`: apply the fetch policy to every repository
entry of the configuration in order. -/
def ReposFetch.execute (w : GitWorld) (cfg : KasConfig) :
    List Event × Option CmdError :=
  runEntries (fetchRepo w cfg) cfg.repos

/-! ## Repository checkout policy (`ReposCheckout.execute`) -/

/-- The body of the `ReposCheckout.execute` loop for one repository entry.
Mirrors the source: skip disabled entries; probe `git diff --shortstat` with
failure suppressed and treat any output as a dirty tree (warn, skip); resolve
`HEAD` via `git rev-parse --verify HEAD` in failing mode (a nonzero status
raises); when the stripped output equals the refspec, log info and skip;
otherwise run `git checkout -q refspec` in failing mode — this last call
passes a working directory but no environment mapping. -/
def checkoutRepo (w : GitWorld) (cfg : KasConfig) (repo : Repo) :
    List Event × Option CmdError :=
  if repo.git_operation_disabled then ([], none)
  else
    let cmdDiff := ["/usr/bin/git", "diff", "--shortstat"]
    let rDiff := runCmd w cmdDiff (some cfg.environ) repo.path false
    let evDiff := Event.invoke ⟨cmdDiff, some cfg.environ, repo.path⟩
    if rDiff.output.length != 0 then
      ([evDiff, Event.log .warning "Repo %s is dirty. no checkout" [repo.name]],
       none)
    else
      let cmdHead := ["/usr/bin/git", "rev-parse", "--verify", "HEAD"]
      let rHead := runCmd w cmdHead (some cfg.environ) repo.path true
      let evHead := Event.invoke ⟨cmdHead, some cfg.environ, repo.path⟩
      match rHead.err with
      | some e => ([evDiff, evHead], some e)
      | none =>
        if pyStrip rHead.output = repo.refspec then
          ([evDiff, evHead,
            Event.log .info
              "Repo %s has already checkout out correct refspec. nothing to do"
              [repo.name]], none)
        else
          let cmdCo := ["/usr/bin/git", "checkout", "-q", repo.refspec]
          let rCo := runCmd w cmdCo none repo.path true
          ([evDiff, evHead, Event.invoke ⟨cmdCo, none, repo.path⟩], rCo.err)

/-- `ReposCheckout.execute(config)`: apply the checkout policy to every
repository entry of the configuration in order. -/
def ReposCheckout.execute (w : GitWorld) (cfg : KasConfig) :
    List Event × Option CmdError :=
  runEntries (checkoutRepo w cfg) cfg.repos

/-! ## Observation helpers over traces -/

/-- Whether an event is an invocation of a checkout command. -/
def invokesCheckout : Event → Bool
  | .invoke inv => inv.cmd.take 2 == ["/usr/bin/git", "checkout"]
  | _ => false

/-- Whether an event respects the environment-argument discipline the code
actually follows: the checkout invocation passes no environment mapping,
every other invocation passes the shared process environment. -/
def envOk (environ : Env) : Event → Bool
  | .invoke inv =>
    if inv.cmd.take 2 == ["/usr/bin/git", "checkout"] then inv.env == none
    else inv.env == some environ
  | _ => true

/-- Whether an event's invocation names an explicit working directory that is
either the kas working directory or the repository path. -/
def cwdOk (workdir repopath : String) : Event → Bool
  | .invoke inv => inv.cwd == workdir || inv.cwd == repopath
  | _ => true

/-- Whether an event is an invocation of the fetch-all-remotes command (the
network operation of the fetch policy). -/
def invokesFetchAll : Event → Bool
  | .invoke inv => inv.cmd == ["/usr/bin/git", "fetch", "--all"]
  | _ => false

/-- Whether an event is an invocation that passes an explicit environment
mapping (the claim under test for every subprocess call). -/
def envExplicit : Event → Bool
  | .invoke inv => inv.env.isSome
  | _ => true

/-! ## Concrete fixtures for closed statements -/

/-- A fixed environment mapping. -/
def env0 : Env := [("HOME", "/tmp/kashome")]

/-- A plain repository entry. -/
def repoA : Repo :=
  ⟨"https://example.org/r.git", "/work/r", "deadbeef", "r", "example/r", false⟩

/-- A second repository entry, used after `repoA` in lists. -/
def repoB : Repo :=
  ⟨"https://example.org/b.git", "/work/b", "cafebabe", "b", "example/b", false⟩

/-- A repository entry with git operations disabled. -/
def repoD : Repo :=
  ⟨"https://example.org/d.git", "/work/d", "d00d", "d", "example/d", true⟩

/-- Configuration with the single entry `repoA`. -/
def cfgA : KasConfig := ⟨[repoA], none, env0, "/work"⟩

/-- Configuration listing a disabled entry, then `repoA`, then `repoB`. -/
def cfgDAB : KasConfig := ⟨[repoD, repoA, repoB], none, env0, "/work"⟩

/-- Configuration listing `repoA` then `repoB`. -/
def cfgAB : KasConfig := ⟨[repoA, repoB], none, env0, "/work"⟩

/-- Configuration with a reference-directory root `/refs`. -/
def cfgRef : KasConfig := ⟨[repoA], some "/refs", env0, "/work"⟩

/-- World where the diff probe reports a dirty tree. -/
def wDirty : GitWorld where
  pathExists := fun _ => true
  run := fun cmd _ =>
    if cmd = ["/usr/bin/git", "diff", "--shortstat"] then (0, " 1 file changed")
    else (0, "")

/-- World with clean trees whose HEAD resolves to `deadbeef`. -/
def wClean : GitWorld where
  pathExists := fun _ => true
  run := fun cmd _ =>
    if cmd = ["/usr/bin/git", "rev-parse", "--verify", "HEAD"] then (0, "deadbeef\n")
    else (0, "")

/-- World with clean trees whose HEAD resolves to a commit matching no
fixture refspec. -/
def wStale : GitWorld where
  pathExists := fun _ => true
  run := fun cmd _ =>
    if cmd = ["/usr/bin/git", "rev-parse", "--verify", "HEAD"] then (0, "0123abcd\n")
    else (0, "")

/-- World where the object-type probe and the fetch both fail. -/
def wFetchFail : GitWorld where
  pathExists := fun _ => true
  run := fun cmd _ =>
    if cmd.take 3 = ["/usr/bin/git", "cat-file", "-t"] then (128, "missing")
    else if cmd = ["/usr/bin/git", "fetch", "--all"] then (1, "network down")
    else (0, "")

/-- World where every target revision is already present locally. -/
def wHave : GitWorld where
  pathExists := fun _ => true
  run := fun cmd _ =>
    if cmd.take 3 = ["/usr/bin/git", "cat-file", "-t"] then (0, "commit")
    else (0, "")

/-- World with no local clone anywhere but a reference mirror of `repoA`
under `/refs`. -/
def wNoPath : GitWorld where
  pathExists := fun s => s == "/refs/example/r"
  run := fun _ _ => (0, "")

/-- World where HEAD resolution fails. -/
def wHeadFail : GitWorld where
  pathExists := fun _ => true
  run := fun cmd _ =>
    if cmd = ["/usr/bin/git", "rev-parse", "--verify", "HEAD"]
    then (128, "fatal: bad revision")
    else (0, "")

/-- Hook environment over a `Nat` counter configuration: step `a` has a
pre-hook and a post-hook, no step has an override, and every callable
increments the counter. -/
def hooksA : HookEnv Nat Unit where
  hasPre := fun n => n == "a"
  hasOverride := fun _ => false
  hasPost := fun _ => true
  runAction := fun _ c => .ok (c + 1)

/-- Hook environment where the default routine of step `a` raises and every
other callable increments the counter. -/
def hooksB : HookEnv Nat Unit where
  hasPre := fun _ => false
  hasOverride := fun _ => false
  hasPost := fun _ => false
  runAction := fun a c =>
    if a = Action.defaultRoutine "a" then .error () else .ok (c + 1)

/-! ## Lemmas on the orchestrator -/

/-- The routine run in place of a step's body is tagged with the step's
name. -/
theorem stepAct_stepName {Cfg Err : Type} (h : HookEnv Cfg Err) (name : String) :
    (stepAct h name).stepName = name := by
  unfold stepAct
  split <;> rfl

/-- On success, `stepMid` extends the trace with exactly one
override-or-default entry followed by the post-hook entry when one is
registered. -/
theorem stepMid_ok_trace {Cfg Err : Type} (h : HookEnv Cfg Err) (name : String)
    (c₀ : Cfg) (pre : List (Action × Cfg)) (c' : Cfg) (tr : List (Action × Cfg))
    (hok : stepMid h name c₀ pre = (.ok c', tr)) :
    ∃ c₂, tr = pre ++ [(stepAct h name, c₀)]
        ++ (if h.hasPost name then [(Action.postHook name, c₂)] else []) := by
  unfold stepMid at hok
  cases hm : h.runAction (stepAct h name) c₀ with
  | error e => rw [hm] at hok; simp at hok
  | ok c₁ =>
    rw [hm] at hok
    simp only [] at hok
    by_cases hp : h.hasPost name
    · rw [if_pos hp] at hok
      refine ⟨c₁, ?_⟩
      rw [if_pos hp]
      have := congrArg Prod.snd hok
      simpa using this.symm
    · rw [if_neg hp] at hok
      refine ⟨c₁, ?_⟩
      rw [if_neg hp]
      have := congrArg Prod.snd hok
      simpa using this.symm

/-- On success, a non-skipped step's trace has the pre / exactly-one-routine /
post shape. -/
theorem runStep_ok_shape {Cfg Err : Type} (h : HookEnv Cfg Err) (name : String)
    (cfg c' : Cfg) (tr : List (Action × Cfg))
    (hok : runStep h name cfg = (.ok c', tr)) :
    StepShape h name tr := by
  unfold runStep at hok
  by_cases hp : h.hasPre name
  · rw [if_pos hp] at hok
    cases hpre : h.runAction (Action.preHook name) cfg with
    | error e => rw [hpre] at hok; simp at hok
    | ok c₀ =>
      rw [hpre] at hok
      obtain ⟨c₂, htr⟩ := stepMid_ok_trace h name c₀ _ c' tr hok
      exact ⟨cfg, c₀, c₂, by rw [if_pos hp, htr]⟩
  · rw [if_neg hp] at hok
    obtain ⟨c₂, htr⟩ := stepMid_ok_trace h name cfg [] c' tr hok
    exact ⟨cfg, cfg, c₂, by rw [if_neg hp]; simpa using htr⟩

/-- When `stepMid` propagates an error, the trace ends at the raising
callable and the propagated error is exactly the one it raised. -/
theorem stepMid_error_last {Cfg Err : Type} (h : HookEnv Cfg Err) (name : String)
    (c₀ : Cfg) (pre : List (Action × Cfg)) (e : Err) (tr : List (Action × Cfg))
    (herr : stepMid h name c₀ pre = (.error e, tr)) :
    ∃ l a c, tr = l ++ [(a, c)] ∧ h.runAction a c = .error e := by
  unfold stepMid at herr
  cases hm : h.runAction (stepAct h name) c₀ with
  | error e' =>
    rw [hm] at herr
    have h1 := congrArg Prod.fst herr
    have h2 := congrArg Prod.snd herr
    simp at h1 h2
    exact ⟨pre, stepAct h name, c₀, h2.symm, by rw [hm, h1]⟩
  | ok c₁ =>
    rw [hm] at herr
    simp only [] at herr
    by_cases hp : h.hasPost name
    · rw [if_pos hp] at herr
      have h1 := congrArg Prod.fst herr
      have h2 := congrArg Prod.snd herr
      simp at h1 h2
      refine ⟨pre ++ [(stepAct h name, c₀)], Action.postHook name, c₁, ?_, h1⟩
      rw [← h2]; simp
    · rw [if_neg hp] at herr
      simp at herr

/-- When a non-skipped step propagates an error, its trace ends at the raising
callable. -/
theorem runStep_error_last {Cfg Err : Type} (h : HookEnv Cfg Err) (name : String)
    (cfg : Cfg) (e : Err) (tr : List (Action × Cfg))
    (herr : runStep h name cfg = (.error e, tr)) :
    ∃ l a c, tr = l ++ [(a, c)] ∧ h.runAction a c = .error e := by
  unfold runStep at herr
  by_cases hp : h.hasPre name
  · rw [if_pos hp] at herr
    cases hpre : h.runAction (Action.preHook name) cfg with
    | error e' =>
      rw [hpre] at herr
      have h1 := congrArg Prod.fst herr
      have h2 := congrArg Prod.snd herr
      simp at h1 h2
      exact ⟨[], Action.preHook name, cfg, by simpa using h2.symm, by rw [hpre, h1]⟩
    | ok c₀ =>
      rw [hpre] at herr
      exact stepMid_error_last h name c₀ _ e tr herr
  · rw [if_neg hp] at herr
    exact stepMid_error_last h name cfg [] e tr herr

/-- Every entry of a step-shaped trace is tagged with the step's name. -/
theorem StepShape_stepName {Cfg Err : Type} (h : HookEnv Cfg Err) (name : String)
    (l : List (Action × Cfg)) (hs : StepShape h name l) :
    ∀ p ∈ l, p.1.stepName = name := by
  obtain ⟨c₀, c₁, c₂, rfl⟩ := hs
  intro p hp
  simp only [List.mem_append] at hp
  rcases hp with (hp | hp) | hp
  · by_cases hpre : h.hasPre name
    · rw [if_pos hpre] at hp
      simp only [List.mem_singleton] at hp
      rw [hp]; rfl
    · rw [if_neg hpre] at hp
      simp at hp
  · simp only [List.mem_singleton] at hp
    rw [hp]
    exact stepAct_stepName h name
  · by_cases hpost : h.hasPost name
    · rw [if_pos hpost] at hp
      simp only [List.mem_singleton] at hp
      rw [hp]; rfl
    · rw [if_neg hpost] at hp
      simp at hp

/-- Claim C9: the orchestrator catches no exceptions. When `Macro.run` ends
with an error, the propagated error is exactly the one raised by the last
invoked callable, and the trace ends at that callable: no remaining hook of
the current step and no subsequent step of the plan ran after it, and the
effects of the already-invoked callables (the earlier trace entries) are not
rolled back. -/
theorem orchestrator_fail_fast {Cfg Err : Type} (h : HookEnv Cfg Err)
    (commands skip : List String) (cfg : Cfg) (e : Err)
    (tr : List (Action × Cfg))
    (herr : planRun h commands skip cfg = (.error e, tr)) :
    ∃ l a c, tr = l ++ [(a, c)] ∧ h.runAction a c = .error e := by
  induction commands generalizing cfg tr with
  | nil => simp [planRun] at herr
  | cons c cs ih =>
    unfold planRun at herr
    by_cases hs : skip.contains c
    · rw [if_pos hs] at herr
      exact ih cfg tr herr
    · rw [if_neg hs] at herr
      cases hrs : runStep h c cfg with
      | mk res tr₀ =>
        rw [hrs] at herr
        cases res with
        | error e' =>
          simp only [] at herr
          have h1 := congrArg Prod.fst herr
          have h2 := congrArg Prod.snd herr
          simp only at h1 h2
          cases h1
          exact runStep_error_last h c cfg e tr (h2 ▸ hrs)
        | ok c₁ =>
          simp only [] at herr
          have h1 := congrArg Prod.fst herr
          have h2 := congrArg Prod.snd herr
          simp only at h1 h2
          have hq : planRun h cs skip c₁ =
              (.error e, (planRun h cs skip c₁).2) := by
            rw [← h1]
          obtain ⟨l, a, cc, hl, ha⟩ := ih c₁ _ hq
          exact ⟨tr₀ ++ l, a, cc, by rw [← h2, hl, List.append_assoc], ha⟩

/-- On success, the `Macro.run` trace decomposes into one step-shaped piece
per non-skipped command, in plan order, and skipped commands contribute
nothing. -/
theorem planRun_ok_pieces {Cfg Err : Type} (h : HookEnv Cfg Err)
    (commands skip : List String) (cfg c' : Cfg) (tr : List (Action × Cfg))
    (hok : planRun h commands skip cfg = (.ok c', tr)) :
    ∃ pieces : List (String × List (Action × Cfg)),
      pieces.map Prod.fst = commands.filter (fun n => !skip.contains n) ∧
      tr = pieces.flatMap Prod.snd ∧
      ∀ q ∈ pieces, StepShape h q.1 q.2 := by
  induction commands generalizing cfg tr with
  | nil =>
    simp only [planRun, Prod.mk.injEq] at hok
    exact ⟨[], by simp, by simp [← hok.2], by simp⟩
  | cons c cs ih =>
    unfold planRun at hok
    by_cases hs : skip.contains c
    · rw [if_pos hs] at hok
      obtain ⟨pieces, hmap, htr, hshape⟩ := ih cfg tr hok
      have hs' : c ∈ skip := by simpa using hs
      exact ⟨pieces, by simp [List.filter_cons, hs', hmap], htr, hshape⟩
    · rw [if_neg hs] at hok
      cases hrs : runStep h c cfg with
      | mk res tr₀ =>
        rw [hrs] at hok
        cases res with
        | error e' => simp at hok
        | ok c₁ =>
          simp only [] at hok
          have h1 := congrArg Prod.fst hok
          have h2 := congrArg Prod.snd hok
          simp only at h1 h2
          have hq : planRun h cs skip c₁ =
              (.ok c', (planRun h cs skip c₁).2) := by
            rw [← h1]
          obtain ⟨pieces, hmap, htr, hshape⟩ := ih c₁ _ hq
          have hs' : c ∉ skip := by simpa using hs
          refine ⟨(c, tr₀) :: pieces, ?_, ?_, ?_⟩
          · simp [List.filter_cons, hs', hmap]
          · rw [← h2, htr]
            simp [List.flatMap_cons]
          · intro q hq'
            rcases List.mem_cons.mp hq' with hq' | hq'
            · rw [hq']
              exact runStep_ok_shape h c cfg c₁ tr₀ hrs
            · exact hshape q hq'

/-! ## Lemmas on the per-entry loops -/

/-- A prefix of entries none of which propagates an error contributes its
events in order, and the loop continues past it. -/
theorem runEntries_append (f : Repo → List Event × Option CmdError)
    (l₁ l₂ : List Repo) (h : ∀ p ∈ l₁, (f p).2 = none) :
    runEntries f (l₁ ++ l₂) =
      ((l₁.flatMap fun p => (f p).1) ++ (runEntries f l₂).1,
       (runEntries f l₂).2) := by
  induction l₁ with
  | nil => simp
  | cons r rs ih =>
    have hr : (f r).2 = none := h r (List.mem_cons_self r rs)
    have hrs : ∀ p ∈ rs, (f p).2 = none :=
      fun p hp => h p (List.mem_cons_of_mem r hp)
    rw [List.cons_append]
    simp only [runEntries, hr]
    rw [ih hrs]
    simp [List.flatMap_cons, List.append_assoc]

/-- An entry that propagates an error ends the loop: its predecessors' and
its own events are emitted, entries after it are never processed. -/
theorem runEntries_error (f : Repo → List Event × Option CmdError)
    (l₁ : List Repo) (r : Repo) (l₂ : List Repo) (e : CmdError)
    (h : ∀ p ∈ l₁, (f p).2 = none) (hr : (f r).2 = some e) :
    runEntries f (l₁ ++ r :: l₂) =
      ((l₁.flatMap fun p => (f p).1) ++ (f r).1, some e) := by
  induction l₁ with
  | nil => simp [runEntries, hr]
  | cons p ps ih =>
    have hp : (f p).2 = none := h p (List.mem_cons_self p ps)
    have hps : ∀ q ∈ ps, (f q).2 = none :=
      fun q hq => h q (List.mem_cons_of_mem p hq)
    rw [List.cons_append]
    simp only [runEntries, hp]
    rw [ih hps]
    simp [List.flatMap_cons, List.append_assoc]

/-! ## Claim theorems -/

/-- Claim C8: for every repository entry with `git_operation_disabled` set to
true, both the fetch policy and the checkout policy perform no filesystem or
version-control mutation on the entry: it is skipped before any directory
creation, subprocess invocation, or log output concerning it, and no error is
propagated for it. -/
theorem disabled_entry_untouched (w : GitWorld) (cfg : KasConfig) (repo : Repo)
    (hdis : repo.git_operation_disabled = true) :
    fetchRepo w cfg repo = ([], none) ∧ checkoutRepo w cfg repo = ([], none) := by
  unfold fetchRepo checkoutRepo
  rw [hdis]
  simp

/-- Witness for C8: the disabled fixture entry leaves both policies inert. -/
theorem disabled_entry_untouched_witness :
    fetchRepo wHave cfgDAB repoD = ([], none) ∧
    checkoutRepo wHave cfgDAB repoD = ([], none) :=
  disabled_entry_untouched wHave cfgDAB repoD rfl

/-- Claim C1: in the checkout policy, whenever the short-status diff query
returns any output, the policy emits exactly the diff invocation and a
warning naming the repository — no checkout command is ever invoked for the
entry, whatever HEAD resolves to. -/
theorem dirty_tree_never_checked_out (w : GitWorld) (cfg : KasConfig)
    (repo : Repo) (hdis : repo.git_operation_disabled = false)
    (hdirty : (w.run ["/usr/bin/git", "diff", "--shortstat"] repo.path).2.length
      ≠ 0) :
    checkoutRepo w cfg repo =
      ([Event.invoke ⟨["/usr/bin/git", "diff", "--shortstat"],
          some cfg.environ, repo.path⟩,
        Event.log .warning "Repo %s is dirty. no checkout" [repo.name]],
       none) ∧
    (checkoutRepo w cfg repo).1.all (fun ev => !invokesCheckout ev) = true := by
  have h1 : checkoutRepo w cfg repo =
      ([Event.invoke ⟨["/usr/bin/git", "diff", "--shortstat"],
          some cfg.environ, repo.path⟩,
        Event.log .warning "Repo %s is dirty. no checkout" [repo.name]],
       none) := by
    unfold checkoutRepo
    rw [hdis]
    simp only [runCmd]
    rw [if_neg (by simp)]
    rw [if_pos (by simpa using hdirty)]
  refine ⟨h1, ?_⟩
  rw [h1]
  simp [invokesCheckout]

/-- Witness for C1: in the dirty-tree fixture world the checkout policy only
warns. -/
theorem dirty_tree_never_checked_out_witness :
    checkoutRepo wDirty cfgA repoA =
      ([Event.invoke ⟨["/usr/bin/git", "diff", "--shortstat"],
          some cfgA.environ, repoA.path⟩,
        Event.log .warning "Repo %s is dirty. no checkout" [repoA.name]],
       none) ∧
    (checkoutRepo wDirty cfgA repoA).1.all (fun ev => !invokesCheckout ev)
      = true :=
  dirty_tree_never_checked_out wDirty cfgA repoA rfl (by decide)

/-- Claim C3: in the checkout policy, on a clean tree the resolved HEAD
commit identifier, stripped of surrounding whitespace, is compared literally
to the entry's refspec; when they are equal the policy emits exactly the two
probe invocations and an informational message — no checkout command is
invoked, so a run on a clean, up-to-date repository performs no
version-control mutation. -/
theorem checkout_noop_when_head_matches (w : GitWorld) (cfg : KasConfig)
    (repo : Repo) (hdis : repo.git_operation_disabled = false)
    (hclean : (w.run ["/usr/bin/git", "diff", "--shortstat"] repo.path).2.length
      = 0)
    (hres : (w.run ["/usr/bin/git", "rev-parse", "--verify", "HEAD"]
      repo.path).1 = 0)
    (hhead : pyStrip (w.run ["/usr/bin/git", "rev-parse", "--verify", "HEAD"]
      repo.path).2 = repo.refspec) :
    checkoutRepo w cfg repo =
      ([Event.invoke ⟨["/usr/bin/git", "diff", "--shortstat"],
          some cfg.environ, repo.path⟩,
        Event.invoke ⟨["/usr/bin/git", "rev-parse", "--verify", "HEAD"],
          some cfg.environ, repo.path⟩,
        Event.log .info
          "Repo %s has already checkout out correct refspec. nothing to do"
          [repo.name]], none) ∧
    (checkoutRepo w cfg repo).1.all (fun ev => !invokesCheckout ev) = true := by
  have h1 : checkoutRepo w cfg repo =
      ([Event.invoke ⟨["/usr/bin/git", "diff", "--shortstat"],
          some cfg.environ, repo.path⟩,
        Event.invoke ⟨["/usr/bin/git", "rev-parse", "--verify", "HEAD"],
          some cfg.environ, repo.path⟩,
        Event.log .info
          "Repo %s has already checkout out correct refspec. nothing to do"
          [repo.name]], none) := by
    unfold checkoutRepo
    rw [hdis]
    simp only [runCmd]
    rw [if_neg (by simp)]
    rw [if_neg (by simp [hclean])]
    rw [hres]
    rw [if_neg (by simp)]
    simp only []
    rw [if_pos hhead]
  refine ⟨h1, ?_⟩
  rw [h1]
  simp [invokesCheckout]

/-- Witness for C3: in the clean, up-to-date fixture world the checkout
policy only logs an informational message. -/
theorem checkout_noop_when_head_matches_witness :
    checkoutRepo wClean cfgA repoA =
      ([Event.invoke ⟨["/usr/bin/git", "diff", "--shortstat"],
          some cfgA.environ, repoA.path⟩,
        Event.invoke ⟨["/usr/bin/git", "rev-parse", "--verify", "HEAD"],
          some cfgA.environ, repoA.path⟩,
        Event.log .info
          "Repo %s has already checkout out correct refspec. nothing to do"
          [repoA.name]], none) ∧
    (checkoutRepo wClean cfgA repoA).1.all (fun ev => !invokesCheckout ev)
      = true :=
  checkout_noop_when_head_matches wClean cfgA repoA rfl (by decide) (by decide)
    (by decide)

/-- Witness for C9: with a default routine that raises, the run ends with
exactly that error and the trace stops at the raising routine. -/
theorem orchestrator_fail_fast_witness :
    ∃ l a c, ([(Action.defaultRoutine "a", 0)] : List (Action × Nat))
        = l ++ [(a, c)] ∧ hooksB.runAction a c = Except.error () :=
  orchestrator_fail_fast hooksB ["a", "b"] [] 0 ()
    [(Action.defaultRoutine "a", 0)] rfl

/-- Claim C2: on a successful run, no invoked callable belongs to a skipped
step, and the trace splits into one piece per non-skipped command in plan
order, each piece consisting of the pre-hook entry (exactly when registered),
then exactly one of override hook / default routine, then the post-hook entry
(exactly when registered), each invoked with the configuration as its only
argument. -/
theorem skip_and_single_routine_discipline {Cfg Err : Type}
    (h : HookEnv Cfg Err) (commands skip : List String) (cfg c' : Cfg)
    (tr : List (Action × Cfg))
    (hok : planRun h commands skip cfg = (.ok c', tr)) :
    (∀ p ∈ tr, skip.contains p.1.stepName = false) ∧
    ∃ pieces : List (String × List (Action × Cfg)),
      pieces.map Prod.fst = commands.filter (fun n => !skip.contains n) ∧
      tr = pieces.flatMap Prod.snd ∧
      ∀ q ∈ pieces, StepShape h q.1 q.2 := by
  obtain ⟨pieces, hmap, htr, hshape⟩ :=
    planRun_ok_pieces h commands skip cfg c' tr hok
  refine ⟨?_, pieces, hmap, htr, hshape⟩
  intro p hp
  rw [htr] at hp
  obtain ⟨q, hq, hpq⟩ := List.mem_flatMap.mp hp
  rw [StepShape_stepName h q.1 q.2 (hshape q hq) p hpq]
  have hqf : q.1 ∈ commands.filter (fun n => !skip.contains n) := by
    rw [← hmap]
    exact List.mem_map_of_mem Prod.fst hq
  have hpred := List.of_mem_filter hqf
  simpa using hpred

/-- Witness for C2: a two-command plan with the second command skipped runs
only the first command's pre-hook, default routine and post-hook. -/
theorem skip_and_single_routine_discipline_witness :
    (∀ p ∈ ([(Action.preHook "a", 0), (Action.defaultRoutine "a", 1),
        (Action.postHook "a", 2)] : List (Action × Nat)),
      (["b"] : List String).contains p.1.stepName = false) ∧
    ∃ pieces : List (String × List (Action × Nat)),
      pieces.map Prod.fst = (["a", "b"] : List String).filter
        (fun n => !(["b"] : List String).contains n) ∧
      ([(Action.preHook "a", 0), (Action.defaultRoutine "a", 1),
        (Action.postHook "a", 2)] : List (Action × Nat))
        = pieces.flatMap Prod.snd ∧
      ∀ q ∈ pieces, StepShape hooksA q.1 q.2 :=
  skip_and_single_routine_discipline hooksA ["a", "b"] ["b"] 0 3
    [(Action.preHook "a", 0), (Action.defaultRoutine "a", 1),
     (Action.postHook "a", 2)] rfl

/-- Claim C4: in the fetch policy, for an entry whose local path exists,
when the object-type probe fails and the fetch of all remotes also returns a
nonzero status, the policy emits a non-fatal warning naming the repository
and the captured output and propagates no error; the full run then continues
with the remaining entries exactly as if the failure had not happened. -/
theorem fetch_failure_is_nonfatal (w : GitWorld) (cfg : KasConfig)
    (pre post : List Repo) (repo : Repo)
    (hrepos : cfg.repos = pre ++ repo :: post)
    (hpre : ∀ p ∈ pre, (fetchRepo w cfg p).2 = none)
    (hdis : repo.git_operation_disabled = false)
    (hex : w.pathExists repo.path = true)
    (hcat : (w.run ["/usr/bin/git", "cat-file", "-t", repo.refspec]
      repo.path).1 ≠ 0)
    (hfet : (w.run ["/usr/bin/git", "fetch", "--all"] repo.path).1 ≠ 0) :
    fetchRepo w cfg repo =
      ([Event.invoke ⟨["/usr/bin/git", "cat-file", "-t", repo.refspec],
          some cfg.environ, repo.path⟩,
        Event.invoke ⟨["/usr/bin/git", "fetch", "--all"],
          some cfg.environ, repo.path⟩,
        Event.log .warning "Could not update repository %s: %s"
          [repo.name, (w.run ["/usr/bin/git", "fetch", "--all"]
            repo.path).2]], none) ∧
    ReposFetch.execute w cfg =
      ((pre.flatMap fun p => (fetchRepo w cfg p).1) ++ (fetchRepo w cfg repo).1
         ++ (runEntries (fetchRepo w cfg) post).1,
       (runEntries (fetchRepo w cfg) post).2) := by
  have h1 : fetchRepo w cfg repo =
      ([Event.invoke ⟨["/usr/bin/git", "cat-file", "-t", repo.refspec],
          some cfg.environ, repo.path⟩,
        Event.invoke ⟨["/usr/bin/git", "fetch", "--all"],
          some cfg.environ, repo.path⟩,
        Event.log .warning "Could not update repository %s: %s"
          [repo.name, (w.run ["/usr/bin/git", "fetch", "--all"]
            repo.path).2]], none) := by
    unfold fetchRepo
    rw [hdis, hex]
    rw [if_neg (by simp)]
    rw [if_neg (by simp)]
    simp only [runCmd]
    rw [if_neg hcat]
    rw [if_pos (by simpa using hfet)]
  refine ⟨h1, ?_⟩
  have hall : ∀ p ∈ pre ++ [repo], (fetchRepo w cfg p).2 = none := by
    intro p hp
    rcases List.mem_append.mp hp with hp | hp
    · exact hpre p hp
    · simp only [List.mem_singleton] at hp
      rw [hp, h1]
  unfold ReposFetch.execute
  rw [hrepos, show pre ++ repo :: post = (pre ++ [repo]) ++ post by simp]
  rw [runEntries_append _ _ _ hall]
  simp [List.flatMap_append, List.append_assoc]

/-- Witness for C4: with a failing probe and a failing fetch on `repoA`, the
run still reaches `repoB`. -/
theorem fetch_failure_is_nonfatal_witness :
    fetchRepo wFetchFail cfgDAB repoA =
      ([Event.invoke ⟨["/usr/bin/git", "cat-file", "-t", repoA.refspec],
          some cfgDAB.environ, repoA.path⟩,
        Event.invoke ⟨["/usr/bin/git", "fetch", "--all"],
          some cfgDAB.environ, repoA.path⟩,
        Event.log .warning "Could not update repository %s: %s"
          [repoA.name, (wFetchFail.run ["/usr/bin/git", "fetch", "--all"]
            repoA.path).2]], none) ∧
    ReposFetch.execute wFetchFail cfgDAB =
      (([repoD].flatMap fun p => (fetchRepo wFetchFail cfgDAB p).1)
         ++ (fetchRepo wFetchFail cfgDAB repoA).1
         ++ (runEntries (fetchRepo wFetchFail cfgDAB) [repoB]).1,
       (runEntries (fetchRepo wFetchFail cfgDAB) [repoB]).2) :=
  fetch_failure_is_nonfatal wFetchFail cfgDAB [repoD] [repoB] repoA rfl
    (by decide) rfl (by decide) (by decide) (by decide)

/-- Claim C5: in the fetch policy, for an entry whose local path exists,
when the failure-suppressed object-type probe returns a zero exit status the
policy emits only that probe invocation — in particular no fetch of all
remotes — and propagates no error; the run then continues with the remaining
entries. -/
theorem fetch_skipped_when_revision_present (w : GitWorld) (cfg : KasConfig)
    (pre post : List Repo) (repo : Repo)
    (hrepos : cfg.repos = pre ++ repo :: post)
    (hpre : ∀ p ∈ pre, (fetchRepo w cfg p).2 = none)
    (hdis : repo.git_operation_disabled = false)
    (hex : w.pathExists repo.path = true)
    (hcat : (w.run ["/usr/bin/git", "cat-file", "-t", repo.refspec]
      repo.path).1 = 0) :
    fetchRepo w cfg repo =
      ([Event.invoke ⟨["/usr/bin/git", "cat-file", "-t", repo.refspec],
          some cfg.environ, repo.path⟩], none) ∧
    (fetchRepo w cfg repo).1.all (fun ev => !invokesFetchAll ev) = true ∧
    ReposFetch.execute w cfg =
      ((pre.flatMap fun p => (fetchRepo w cfg p).1) ++ (fetchRepo w cfg repo).1
         ++ (runEntries (fetchRepo w cfg) post).1,
       (runEntries (fetchRepo w cfg) post).2) := by
  have h1 : fetchRepo w cfg repo =
      ([Event.invoke ⟨["/usr/bin/git", "cat-file", "-t", repo.refspec],
          some cfg.environ, repo.path⟩], none) := by
    unfold fetchRepo
    rw [hdis, hex]
    rw [if_neg (by simp)]
    rw [if_neg (by simp)]
    simp only [runCmd]
    rw [if_pos hcat]
  refine ⟨h1, ?_, ?_⟩
  · rw [h1]
    simp [invokesFetchAll]
  · have hall : ∀ p ∈ pre ++ [repo], (fetchRepo w cfg p).2 = none := by
      intro p hp
      rcases List.mem_append.mp hp with hp | hp
      · exact hpre p hp
      · simp only [List.mem_singleton] at hp
        rw [hp, h1]
    unfold ReposFetch.execute
    rw [hrepos, show pre ++ repo :: post = (pre ++ [repo]) ++ post by simp]
    rw [runEntries_append _ _ _ hall]
    simp [List.flatMap_append, List.append_assoc]

/-- Witness for C5: with the target revision already present, only the probe
runs for `repoA` and the run continues to `repoB`. -/
theorem fetch_skipped_when_revision_present_witness :
    fetchRepo wHave cfgDAB repoA =
      ([Event.invoke ⟨["/usr/bin/git", "cat-file", "-t", repoA.refspec],
          some cfgDAB.environ, repoA.path⟩], none) ∧
    (fetchRepo wHave cfgDAB repoA).1.all (fun ev => !invokesFetchAll ev)
      = true ∧
    ReposFetch.execute wHave cfgDAB =
      (([repoD].flatMap fun p => (fetchRepo wHave cfgDAB p).1)
         ++ (fetchRepo wHave cfgDAB repoA).1
         ++ (runEntries (fetchRepo wHave cfgDAB) [repoB]).1,
       (runEntries (fetchRepo wHave cfgDAB) [repoB]).2) :=
  fetch_skipped_when_revision_present wHave cfgDAB [repoD] [repoB] repoA rfl
    (by decide) rfl (by decide) (by decide)

/-- Claim C6: in the fetch policy, for an entry whose local path does not
exist, the policy creates the missing parent directories of the path, logs
the reference-directory lookup, and invokes exactly one clone of the entry's
URL into its path: with a `--reference` argument naming the reference
subdirectory for the qualified name when a reference-directory root is
configured (truthy) and that subdirectory exists, and plainly otherwise. -/
theorem clone_uses_reference_when_available (w : GitWorld) (cfg : KasConfig)
    (repo : Repo) (hdis : repo.git_operation_disabled = false)
    (hex : w.pathExists repo.path = false) :
    (fetchRepo w cfg repo).1 =
      [Event.makedirs (dirname repo.path),
       Event.log .debug "Looking for repo ref dir in %s"
         [joinPath (refDirOrEmpty cfg) repo.qualified_name],
       Event.invoke
         ⟨(if (refDirOrEmpty cfg != "")
              && w.pathExists (joinPath (refDirOrEmpty cfg)
                repo.qualified_name)
           then ["/usr/bin/git", "clone", "--reference",
                 joinPath (refDirOrEmpty cfg) repo.qualified_name,
                 repo.url, repo.path]
           else ["/usr/bin/git", "clone", "-q", repo.url, repo.path]),
          some cfg.environ, cfg.kas_work_dir⟩] := by
  unfold fetchRepo
  rw [hdis, hex]
  rw [if_neg (by simp)]
  rw [if_pos (by simp)]
  by_cases hc : ((refDirOrEmpty cfg != "")
      && w.pathExists (joinPath (refDirOrEmpty cfg) repo.qualified_name))
      = true
  · rw [if_pos hc, if_pos hc]
    rfl
  · rw [if_neg hc, if_neg hc]
    rfl

/-- Witness for C6: with a reference mirror configured and present and no
local clone, the clone is invoked with `--reference`. -/
theorem clone_uses_reference_when_available_witness :
    (fetchRepo wNoPath cfgRef repoA).1 =
      [Event.makedirs (dirname repoA.path),
       Event.log .debug "Looking for repo ref dir in %s"
         [joinPath (refDirOrEmpty cfgRef) repoA.qualified_name],
       Event.invoke
         ⟨(if (refDirOrEmpty cfgRef != "")
              && wNoPath.pathExists (joinPath (refDirOrEmpty cfgRef)
                repoA.qualified_name)
           then ["/usr/bin/git", "clone", "--reference",
                 joinPath (refDirOrEmpty cfgRef) repoA.qualified_name,
                 repoA.url, repoA.path]
           else ["/usr/bin/git", "clone", "-q", repoA.url, repoA.path]),
          some cfgRef.environ, cfgRef.kas_work_dir⟩] :=
  clone_uses_reference_when_available wNoPath cfgRef repoA rfl (by decide)

/-- Claim C10: in the checkout policy the HEAD resolution runs in failing
mode: on a clean tree, when `git rev-parse --verify HEAD` returns a nonzero
status the policy raises — the whole run ends with that error after the two
probe invocations of the failing entry, and the remaining entries are never
processed. -/
theorem head_resolution_failure_aborts (w : GitWorld) (cfg : KasConfig)
    (pre post : List Repo) (repo : Repo)
    (hrepos : cfg.repos = pre ++ repo :: post)
    (hpre : ∀ p ∈ pre, (checkoutRepo w cfg p).2 = none)
    (hdis : repo.git_operation_disabled = false)
    (hclean : (w.run ["/usr/bin/git", "diff", "--shortstat"] repo.path).2.length
      = 0)
    (hfail : (w.run ["/usr/bin/git", "rev-parse", "--verify", "HEAD"]
      repo.path).1 ≠ 0) :
    ReposCheckout.execute w cfg =
      ((pre.flatMap fun p => (checkoutRepo w cfg p).1)
         ++ [Event.invoke ⟨["/usr/bin/git", "diff", "--shortstat"],
              some cfg.environ, repo.path⟩,
             Event.invoke ⟨["/usr/bin/git", "rev-parse", "--verify", "HEAD"],
              some cfg.environ, repo.path⟩],
       some ⟨⟨["/usr/bin/git", "rev-parse", "--verify", "HEAD"],
              some cfg.environ, repo.path⟩,
             (w.run ["/usr/bin/git", "rev-parse", "--verify", "HEAD"]
               repo.path).1,
             (w.run ["/usr/bin/git", "rev-parse", "--verify", "HEAD"]
               repo.path).2⟩) := by
  have h1 : checkoutRepo w cfg repo =
      ([Event.invoke ⟨["/usr/bin/git", "diff", "--shortstat"],
          some cfg.environ, repo.path⟩,
        Event.invoke ⟨["/usr/bin/git", "rev-parse", "--verify", "HEAD"],
          some cfg.environ, repo.path⟩],
       some ⟨⟨["/usr/bin/git", "rev-parse", "--verify", "HEAD"],
              some cfg.environ, repo.path⟩,
             (w.run ["/usr/bin/git", "rev-parse", "--verify", "HEAD"]
               repo.path).1,
             (w.run ["/usr/bin/git", "rev-parse", "--verify", "HEAD"]
               repo.path).2⟩) := by
    unfold checkoutRepo
    rw [hdis]
    simp only [runCmd]
    rw [if_neg (by simp)]
    rw [if_neg (by simp [hclean])]
    rw [if_pos (by simpa using hfail)]
  unfold ReposCheckout.execute
  rw [hrepos]
  rw [runEntries_error (checkoutRepo w cfg) pre repo post _ hpre
    (by rw [h1])]
  rw [h1]

/-- Witness for C10: a failing HEAD resolution on `repoA` aborts the run
before `repoB` is processed. -/
theorem head_resolution_failure_aborts_witness :
    ReposCheckout.execute wHeadFail cfgAB =
      (([] : List Repo).flatMap (fun p => (checkoutRepo wHeadFail cfgAB p).1)
         ++ [Event.invoke ⟨["/usr/bin/git", "diff", "--shortstat"],
              some cfgAB.environ, repoA.path⟩,
             Event.invoke ⟨["/usr/bin/git", "rev-parse", "--verify", "HEAD"],
              some cfgAB.environ, repoA.path⟩],
       some ⟨⟨["/usr/bin/git", "rev-parse", "--verify", "HEAD"],
              some cfgAB.environ, repoA.path⟩,
             (wHeadFail.run ["/usr/bin/git", "rev-parse", "--verify", "HEAD"]
               repoA.path).1,
             (wHeadFail.run ["/usr/bin/git", "rev-parse", "--verify", "HEAD"]
               repoA.path).2⟩) :=
  head_resolution_failure_aborts wHeadFail cfgAB [] [repoB] repoA rfl
    (by simp) rfl (by decide) (by decide)

/-- Counterexample for C7: in a run that reaches the checkout command, the
checkout invocation passes no environment mapping, so not every call of the
policies passes an explicit environment mapping. -/
theorem checkout_call_lacks_env_counterexample :
    (checkoutRepo wStale cfgA repoA).1.all envExplicit = false := by decide

/-- Claim C7 (amended): every subprocess call of the fetch and checkout
policies passes an explicit argument vector and an explicit working directory
(the kas working directory for clones, the repository path otherwise), and
every call except the final checkout command also passes the shared process
environment explicitly; the checkout command is invoked without an
environment argument. -/
theorem subprocess_env_cwd_discipline (w : GitWorld) (cfg : KasConfig)
    (repo : Repo) :
    ((fetchRepo w cfg repo).1.all (envOk cfg.environ) = true ∧
     (checkoutRepo w cfg repo).1.all (envOk cfg.environ) = true) ∧
    ((fetchRepo w cfg repo).1.all (cwdOk cfg.kas_work_dir repo.path) = true ∧
     (checkoutRepo w cfg repo).1.all (cwdOk cfg.kas_work_dir repo.path)
       = true) := by
  refine ⟨⟨?_, ?_⟩, ?_, ?_⟩ <;>
  · simp only [fetchRepo, checkoutRepo, runCmd]
    split_ifs <;> (try split) <;> simp [envOk, cwdOk]

end Kas
